import Mathlib

/-
Verification of the control-flow / dataflow analyzer (Lab_7/analyzer.py).

The analyzer works on a list of stripped, non-blank source lines.  We model a
line as a list of characters, a block id "B<k>" as the natural number k, and a
definition id "d<n>" as the natural number n.  Every regex used by the source
is translated into an explicit character-level matcher; since in each regex the
relevant character classes (word characters, whitespace, operator characters)
are pairwise disjoint, greedy maximal-munch matching is equivalent to Python's
backtracking semantics, so the matchers below are faithful translations.
Python dict/set values become lists, Finsets, or functions; a statement that
can raise an IndexError (indexing an empty list) is modelled with Option, with
none standing for the raised exception.
-/

set_option maxHeartbeats 1000000

namespace Analyzer

/-- Characters of one source line (a Python string as a list of characters). -/
abbrev Chars := List Char

/-- Python's whitespace class, used by the regex class \s and by str.strip(). -/
def pyIsSpace (c : Char) : Bool :=
  c == ' ' || c == '\t' || c == '\n' || c == '\r' || c == '\x0b' || c == '\x0c'

/-- The regex word-character class \w (ASCII letters, digits, underscore). -/
def isWordChar (c : Char) : Bool := c.isAlphanum || c == '_'

/-- Python str.strip(). -/
def pyStrip (s : Chars) : Chars :=
  ((s.dropWhile pyIsSpace).reverse.dropWhile pyIsSpace).reverse

/-- Python substring containment (`pat in s`). -/
def hasSub (pat s : Chars) : Bool :=
  (List.range (s.length + 1)).any (fun k => pat.isPrefixOf (s.drop k))

def ifChars : Chars := "if".data
def whileChars : Chars := "while".data
def forChars : Chars := "for".data
def switchChars : Chars := "switch".data
def elseChars : Chars := "else".data
def caseChars : Chars := "case".data
def defaultChars : Chars := "default".data
def gotoChars : Chars := "goto".data
def returnChars : Chars := "return".data
def breakChars : Chars := "break".data

/-- re.match of the anchored pattern `^KW\s*\(` for a single keyword KW. -/
def matchKwParen (kw s : Chars) : Bool :=
  kw.isPrefixOf s && (((s.drop kw.length).dropWhile pyIsSpace).head? == some '(')

/-- re.match of the anchored pattern `^KW\b`: the keyword followed by a word
boundary (end of line or a non-word character). -/
def matchKwBound (kw s : Chars) : Bool :=
  kw.isPrefixOf s &&
    (match (s.drop kw.length).head? with
     | none => true
     | some c => !isWordChar c)

/-- re.match r'^(if|while|for|switch)\s*\(' (leader rule for decision/loop headers). -/
def isCondLoopHead (s : Chars) : Bool :=
  matchKwParen ifChars s || matchKwParen whileChars s ||
  matchKwParen forChars s || matchKwParen switchChars s

/-- re.match r'^(else|case|default)' (leader rule for branch-target keywords). -/
def isBranchTarget (s : Chars) : Bool :=
  elseChars.isPrefixOf s || caseChars.isPrefixOf s || defaultChars.isPrefixOf s

/-- re.match r'^(if|while|for|switch|goto|return|break)\b'. -/
def isJumpStart (s : Chars) : Bool :=
  matchKwBound ifChars s || matchKwBound whileChars s || matchKwBound forChars s ||
  matchKwBound switchChars s || matchKwBound gotoChars s ||
  matchKwBound returnChars s || matchKwBound breakChars s

/-- Match the regex `goto\s+(\w+);` at the start of cs, returning the label. -/
def gotoAt (cs : Chars) : Option Chars :=
  if gotoChars.isPrefixOf cs then
    let r := cs.drop 4
    if (r.takeWhile pyIsSpace).isEmpty then none
    else
      let r2 := r.dropWhile pyIsSpace
      let w := r2.takeWhile isWordChar
      if w.isEmpty then none
      else if (r2.dropWhile isWordChar).head? == some ';' then some w else none
  else none

/-- re.search r'goto\s+(\w+);' : the leftmost match in the line, if any. -/
def searchGoto : Chars → Option Chars
  | [] => none
  | c :: rest =>
    match gotoAt (c :: rest) with
    | some w => some w
    | none => searchGoto rest

/-- The line indices marked as leaders because they begin with `<label>:` for
the goto label found in `line` (the inner loop of the goto rule). -/
def gotoTargets (lines : List Chars) (line : Chars) : List Nat :=
  match searchGoto line with
  | none => []
  | some lab =>
    (List.range lines.length).filter (fun j => (lab ++ [':']).isPrefixOf (lines.getD j []))

/-- The leader rule for the line after a jump or a closing brace: it applies
when line i starts a jump keyword, or is a closing brace other than line 0,
provided a next line exists and does not itself start with a closing brace. -/
def afterJumpRule (lines : List Chars) (i : Nat) : Bool :=
  (isJumpStart (lines.getD i []) ||
    ((lines.getD i []).head? == some '}' && decide (0 < i)))
  && decide (i + 1 < lines.length)
  && !((lines.getD (i + 1) []).head? == some '}')

/-- Leaders contributed by line i in the main scan of find_leaders. -/
def lineLeaders (lines : List Chars) (i : Nat) : List Nat :=
  (if isCondLoopHead (lines.getD i []) || isBranchTarget (lines.getD i [])
   then [i] else [])
  ++ gotoTargets lines (lines.getD i [])
  ++ (if afterJumpRule lines i then [i + 1] else [])

/-- Leaders contributed by line i in the main scan, with the goto-target rule
removed; used to compare against find_leaders on inputs whose goto labels are
all unresolved. -/
def lineLeadersNoGoto (lines : List Chars) (i : Nat) : List Nat :=
  (if isCondLoopHead (lines.getD i []) || isBranchTarget (lines.getD i [])
   then [i] else [])
  ++ (if afterJumpRule lines i then [i + 1] else [])

/-- The compound line checked by the second scan of find_leaders. -/
def elseBraceChars : Chars := "\x7d else \x7b".data

/-- Leaders contributed by line i in the second scan of find_leaders
(the line after an inline-brace else compound line). -/
def elseLineLeaders (lines : List Chars) (i : Nat) : List Nat :=
  if pyStrip (lines.getD i []) = elseBraceChars ∧ i + 1 < lines.length then [i + 1] else []

/-- The accumulated leader set of find_leaders: line 0 plus the contributions
of both scans over all lines.  A Python set: multiplicity and order are
irrelevant because find_leaders de-duplicates and sorts. -/
def leadersList (lines : List Chars) : List Nat :=
  0 :: ((List.range lines.length).flatMap (fun i => lineLeaders lines i)
        ++ (List.range lines.length).flatMap (fun i => elseLineLeaders lines i))

/-- find_leaders from analyzer.py: line 0, decision/loop and branch-target
lines, goto targets, lines after jumps or closing braces, and lines after a
compound else line; returned as a sorted, de-duplicated list. -/
def find_leaders (lines : List Chars) : List Nat :=
  List.insertionSort (· ≤ ·) (leadersList lines).dedup

/-- find_leaders with the goto-target rule removed (all other rules kept). -/
def findLeadersNoGoto (lines : List Chars) : List Nat :=
  List.insertionSort (· ≤ ·)
    (0 :: ((List.range lines.length).flatMap (fun i => lineLeadersNoGoto lines i)
           ++ (List.range lines.length).flatMap (fun i => elseLineLeaders lines i))).dedup

/-- A basic block: its code lines, its first line index, and its last line
index (end_index - 1, an integer because the empty block has end_line -1). -/
structure BBlock where
  code : List Chars
  startLine : Nat
  endLine : Int
deriving DecidableEq, Inhabited

/-- create_basic_blocks from analyzer.py: block i spans from leader i up to
(but excluding) leader i+1, the last block extends to the end of the file.
The Python loop over `enumerate(leaders)` is written as recursion on the
leader list; block "B<k>" is position k of the result. -/
def create_basic_blocks (lines : List Chars) : List Nat → List BBlock
  | [] => []
  | [s] => [⟨(lines.drop s).take (lines.length - s), s, (lines.length : Int) - 1⟩]
  | s :: t :: rest =>
    ⟨(lines.drop s).take (t - s), s, (t : Int) - 1⟩ :: create_basic_blocks lines (t :: rest)

/-- The block-id string "B<k>" as characters; Python sorts edge lists by this
string, so "B10" sorts before "B9". -/
def bidChars (k : Nat) : Chars := 'B' :: (Nat.repr k).data

/-- Lexicographic ≤ on character lists (Python string comparison). -/
def charsLe : Chars → Chars → Bool
  | [], _ => true
  | _ :: _, [] => false
  | a :: as, b :: bs => if a = b then charsLe as bs else decide (a < b)

/-- Comparison of two block ids by their "B<k>" strings. -/
def bidLe (a b : Nat) : Bool := charsLe (bidChars a) (bidChars b)

def insertSorted (x : Nat) : List Nat → List Nat
  | [] => [x]
  | y :: ys => if bidLe x y then x :: y :: ys else y :: insertSorted x ys

def sortByBid : List Nat → List Nat
  | [] => []
  | x :: xs => insertSorted x (sortByBid xs)

/-- The clean-up `sorted(list(set(edges)))` applied to each edge list:
de-duplicate, then sort by the block-id string. -/
def pySortEdges (l : List Nat) : List Nat := sortByBid l.dedup

/-- re.match r'^(if|while|for)\s*\(' (the conditional-branch test of build_cfg). -/
def isCondHead (s : Chars) : Bool :=
  matchKwParen ifChars s || matchKwParen whileChars s || matchKwParen forChars s

/-- The loop body of the forward search of build_cfg: walk over a block-list
suffix, j being the absolute index of its first element.  Accessing code[0] of
an empty block raises in Python, which is modelled by the outer none;
`some none` means the search ran off the end without finding an else block. -/
def findElseGo : List BBlock → Nat → Option (Option Nat)
  | [], _ => some none
  | b :: bs, j =>
    match b.code.head? with
    | none => none
    | some c0 => if hasSub elseChars c0 then some (some j) else findElseGo bs (j + 1)

/-- The forward search of build_cfg for the first block from index j on whose
first line contains "else". -/
def findElseFrom (blocks : List BBlock) (j : Nat) : Option (Option Nat) :=
  findElseGo (blocks.drop j) j

/-- The raw (pre-cleanup) outgoing edges of block i in build_cfg.  none models
a raised IndexError: code[-1] (or code[0]) of an empty block. -/
def blockEdgesRaw (blocks : List BBlock) (i : Nat) : Option (List Nat) :=
  match (blocks.getD i default).code.getLast? with
  | none => none
  | some lastL =>
    if isCondHead lastL then
      match findElseFrom blocks (i + 1) with
      | none => none
      | some (some j) =>
        some ((if i + 1 < blocks.length then [i + 1] else []) ++ [j])
      | some none =>
        some ((if i + 1 < blocks.length then [i + 1] else [])
              ++ (if i + 2 < blocks.length then [i + 2] else []))
    else
      match (blocks.getD i default).code.head? with
      | none => none
      | some c0 =>
        if hasSub elseChars c0 || hasSub caseChars c0 then
          some (if i + 2 < blocks.length then [i + 2]
                else if i + 1 < blocks.length then [i + 1] else [])
        else if hasSub returnChars lastL || hasSub breakChars lastL ||
                hasSub gotoChars lastL then
          some []
        else
          some (if i + 1 < blocks.length then [i + 1] else [])

/-- Collect per-block results, failing if any single block raised. -/
def optList : List (Option (List Nat)) → Option (List (List Nat))
  | [] => some []
  | none :: _ => none
  | some a :: rest => (optList rest).map (fun r => a :: r)

/-- build_cfg from analyzer.py: per-block edge construction followed by the
duplicate-removing, sorting clean-up pass.  Position i of the result is the
edge list of block "B<i>". -/
def build_cfg (blocks : List BBlock) : Option (List (List Nat)) :=
  (optList ((List.range blocks.length).map (blockEdgesRaw blocks))).map
    (fun cfg => cfg.map pySortEdges)

/-- calculate_metrics from analyzer.py: (N, E, E - N + 2). -/
def calculate_metrics (cfg : List (List Nat)) : Nat × Nat × Int :=
  (cfg.length, (cfg.map List.length).sum,
   ((cfg.map List.length).sum : Int) - (cfg.length : Int) + 2)

/-- One variable definition: its id "d<n>" (as n), the base variable name, and
the index of the owning block "B<k>" (as k). -/
structure Defn where
  id : Nat
  var : Chars
  blk : Nat
deriving DecidableEq, Inhabited

/-- Consume the (\[\w+\])* bracket-subscript groups of the definition regex.
The fuel is the length of the remaining string: every consumed group removes
at least two characters while the fuel drops by one, so it never runs out. -/
def skipBracketsAux : Nat → Chars → Chars
  | 0, cs => cs
  | fuel + 1, cs =>
    match cs with
    | '[' :: rest =>
      let w := rest.takeWhile isWordChar
      match rest.dropWhile isWordChar with
      | ']' :: r2 => if w.isEmpty then cs else skipBracketsAux fuel r2
      | _ => cs
    | _ => cs

def skipBrackets (cs : Chars) : Chars := skipBracketsAux cs.length cs

def eqOpChars : Chars := "=".data
def ppOpChars : Chars := "++".data
def mmOpChars : Chars := "--".data
def peOpChars : Chars := "+=".data
def meOpChars : Chars := "-=".data

/-- re.match r'^\s*(\w+(\[\w+\])*(\[\w+\])*)\s*(=|\+\+|--|\+=|-=)' from
find_definitions, returning group(1).split('[')[0], the base variable name.
Note that '=' is tried first, so a line using '==' still matches. -/
def matchDef (cs : Chars) : Option Chars :=
  let cs1 := cs.dropWhile pyIsSpace
  let name := cs1.takeWhile isWordChar
  if name.isEmpty then none
  else
    let rest := skipBrackets (cs1.dropWhile isWordChar)
    let rest2 := rest.dropWhile pyIsSpace
    if eqOpChars.isPrefixOf rest2 || ppOpChars.isPrefixOf rest2 ||
       mmOpChars.isPrefixOf rest2 || peOpChars.isPrefixOf rest2 ||
       meOpChars.isPrefixOf rest2
    then some name else none

/-- The definitions found in the lines of one block, numbering them from
`start`. -/
def defsInLines (blk : Nat) (start : Nat) : List Chars → List Defn
  | [] => []
  | l :: ls =>
    match matchDef l with
    | some v => ⟨start, v, blk⟩ :: defsInLines blk (start + 1) ls
    | none => defsInLines blk start ls

/-- The scan of find_definitions from block index bi on, with the global
definition counter at cnt. -/
def findDefsFrom (bi cnt : Nat) : List BBlock → List Defn
  | [] => []
  | b :: bs =>
    let ds := defsInLines bi cnt b.code
    ds ++ findDefsFrom (bi + 1) (cnt + ds.length) bs

/-- find_definitions from analyzer.py: scan blocks in order, lines in order,
assigning ids d1, d2, ... in first-occurrence order. -/
def find_definitions (blocks : List BBlock) : List Defn :=
  findDefsFrom 0 1 blocks

/-- The var_to_defs entry of one variable: all ids of definitions of v
(in Python this map is accumulated in the same scan; the result is the same). -/
def varDefs (defs : List Defn) (v : Chars) : Finset Nat :=
  ((defs.filter (fun d => d.var = v)).map Defn.id).toFinset

/-- One step of the loop of compute_gen_kill, processing definition d: add
d.id to gen of its block, then add the other definitions of the same variable
to kill[b] for every block b whose gen now holds d.id. -/
def gkStep (nB : Nat) (defs : List Defn)
    (gk : (Nat → Finset Nat) × (Nat → Finset Nat)) (d : Defn) :
    (Nat → Finset Nat) × (Nat → Finset Nat) :=
  let g := Function.update gk.1 d.blk (insert d.id (gk.1 d.blk))
  let k := fun b =>
    if b < nB ∧ d.id ∈ g b then gk.2 b ∪ (varDefs defs d.var \ {d.id}) else gk.2 b
  (g, k)

/-- compute_gen_kill from analyzer.py, as (gen, kill), each a map from block
index to the set of definition ids. -/
def compute_gen_kill (nB : Nat) (defs : List Defn) :
    (Nat → Finset Nat) × (Nat → Finset Nat) :=
  defs.foldl (gkStep nB defs) (fun _ => ∅, fun _ => ∅)

/-- get_predecessors from analyzer.py: position b lists, in block order, the
blocks with an edge into b. -/
def get_predecessors (cfg : List (List Nat)) : List (List Nat) :=
  (List.range cfg.length).map
    (fun b => (List.range cfg.length).filter (fun a => b ∈ cfg.getD a []))

/-- The mutable state of reaching_definitions_analysis: the in/out sets per
block index and the changed flag of the current pass. -/
structure DFState where
  ins : Nat → Finset Nat
  outs : Nat → Finset Nat
  changed : Bool

/-- IN[b] = union of OUT[p] over the predecessors p of b. -/
def inAt (preds : List (List Nat)) (outs : Nat → Finset Nat) (b : Nat) : Finset Nat :=
  (preds.getD b []).foldl (fun a p => a ∪ outs p) ∅

/-- The body of the inner for-loop of the solver at block b: recompute in[b]
and out[b] and record whether out[b] changed. -/
def dfStep (preds : List (List Nat)) (gen kill : Nat → Finset Nat)
    (st : DFState) (b : Nat) : DFState :=
  ⟨Function.update st.ins b (inAt preds st.outs b),
   Function.update st.outs b (gen b ∪ (inAt preds st.outs b \ kill b)),
   st.changed || decide ((gen b ∪ (inAt preds st.outs b \ kill b)) ≠ st.outs b)⟩

/-- One full pass of the while-loop of reaching_definitions_analysis over the
n blocks in id order, starting with changed reset to False. -/
def fullPass (n : Nat) (preds : List (List Nat)) (gen kill : Nat → Finset Nat)
    (st : DFState) : DFState :=
  (List.range n).foldl (dfStep preds gen kill) ⟨st.ins, st.outs, false⟩

/-- The state at the top of the while-loop: all in/out sets empty, changed
initially True. -/
def dfInit : DFState := ⟨fun _ => ∅, fun _ => ∅, true⟩

/-- The transfer function OUT[b] = gen[b] ∪ (IN[b] - kill[b]) as a function of
the current out-map. -/
def outAt (preds : List (List Nat)) (gen kill : Nat → Finset Nat)
    (outs : Nat → Finset Nat) (b : Nat) : Finset Nat :=
  gen b ∪ (inAt preds outs b \ kill b)

/-- The out-map part of one solver step: in the pass only the out sets feed
later computations, so the pass restricted to out-maps is a function of the
out-map alone. -/
def stepOuts (preds : List (List Nat)) (gen kill : Nat → Finset Nat)
    (O : Nat → Finset Nat) (b : Nat) : Nat → Finset Nat :=
  Function.update O b (outAt preds gen kill O b)

/-- The out-map part of one full pass over the n blocks in id order. -/
def passOuts (n : Nat) (preds : List (List Nat)) (gen kill : Nat → Finset Nat)
    (O : Nat → Finset Nat) : Nat → Finset Nat :=
  (List.range n).foldl (stepOuts preds gen kill) O

/-- Walk of specElseSearch over a block-list suffix, j being the absolute
index of its first element. -/
def specElseGo : List BBlock → Nat → Option Nat
  | [], _ => none
  | b :: bs, j =>
    if hasSub elseChars (b.code.headD []) then some j else specElseGo bs (j + 1)

/-- Stated from the specification, for comparison with build_cfg: "search
forward among later blocks for one whose first line contains else"; the first
block from index j on whose first line contains "else", if any. -/
def specElseSearch (blocks : List BBlock) (j : Nat) : Option Nat :=
  specElseGo (blocks.drop j) j

/-- Stated from the specification, for comparison with build_cfg: the outgoing
edges of a conditional-header block.  "Add an edge to the immediately next
block (the true/body path).  Then search forward among later blocks for one
whose first line contains else; if found, add an edge to it (the false path).
If no else block is found, add an edge to the block two positions ahead when
it exists.  Edges are de-duplicated and sorted per source block." -/
def specCondEdges (blocks : List BBlock) (i : Nat) : List Nat :=
  pySortEdges ((if i + 1 < blocks.length then [i + 1] else [])
    ++ (match specElseSearch blocks (i + 1) with
        | some j => [j]
        | none => if i + 2 < blocks.length then [i + 2] else []))

/-- The block list of one analysis run, as composed in main(). -/
def analysisBlocks (lines : List Chars) : List BBlock :=
  create_basic_blocks lines (find_leaders lines)

/-- The CFG of one analysis run, as composed in main(). -/
def analysisCfg (lines : List Chars) : Option (List (List Nat)) :=
  build_cfg (analysisBlocks lines)

/-- The definition list of one analysis run, as composed in main(). -/
def analysisDefs (lines : List Chars) : List Defn :=
  find_definitions (analysisBlocks lines)

/-- The (gen, kill) maps of one analysis run, as composed in main(). -/
def analysisGenKill (lines : List Chars) :
    (Nat → Finset Nat) × (Nat → Finset Nat) :=
  compute_gen_kill (analysisBlocks lines).length (analysisDefs lines)

/-- True when every goto label occurring in some line of the input is
unresolved: no line of the file begins with `<label>:`. -/
def unresolvedGoto (lines : List Chars) : Bool :=
  lines.all (fun line =>
    match searchGoto line with
    | none => true
    | some lab => lines.all (fun tl => !((lab ++ [':']).isPrefixOf tl)))

/-- A line of straight sequential code: no if/while/for opening and no
return, break or goto substring anywhere in the line. -/
def seqLine (l : Chars) : Bool :=
  !isCondHead l && !hasSub returnChars l && !hasSub breakChars l && !hasSub gotoChars l

/- ------------------------------------------------------------------ -/
/- Leader-set lemmas                                                   -/
/- ------------------------------------------------------------------ -/

lemma mem_find_leaders (lines : List Chars) (x : Nat) :
    x ∈ find_leaders lines ↔ x ∈ leadersList lines := by
  rw [find_leaders, List.mem_insertionSort, List.mem_dedup]

lemma zero_mem_find_leaders (lines : List Chars) : 0 ∈ find_leaders lines := by
  rw [mem_find_leaders]
  exact List.mem_cons_self 0 _

lemma lineLeaders_lt (lines : List Chars) (i : Nat) (hi : i < lines.length) :
    ∀ x ∈ lineLeaders lines i, x < lines.length := by
  intro x hx
  simp only [lineLeaders, List.mem_append] at hx
  rcases hx with (hx | hx) | hx
  · split at hx
    · simp only [List.mem_singleton] at hx
      omega
    · simp at hx
  · unfold gotoTargets at hx
    rcases hgs : searchGoto (lines.getD i []) with _ | lab
    · rw [hgs] at hx
      simp at hx
    · rw [hgs] at hx
      rw [List.mem_filter] at hx
      exact List.mem_range.mp hx.1
  · split at hx
    case isTrue hcond =>
      unfold afterJumpRule at hcond
      simp only [Bool.and_eq_true, decide_eq_true_eq] at hcond
      simp only [List.mem_singleton] at hx
      omega
    case isFalse => simp at hx

lemma elseLineLeaders_lt (lines : List Chars) (i : Nat) :
    ∀ x ∈ elseLineLeaders lines i, x < lines.length := by
  intro x hx
  unfold elseLineLeaders at hx
  split at hx
  case isTrue hc =>
    simp only [List.mem_singleton] at hx
    omega
  case isFalse => simp at hx

lemma leadersList_lt (lines : List Chars) (h0 : lines ≠ []) :
    ∀ x ∈ leadersList lines, x < lines.length := by
  intro x hx
  have hlen : 0 < lines.length := List.length_pos.mpr h0
  simp only [leadersList, List.mem_cons, List.mem_append, List.mem_flatMap,
    List.mem_range] at hx
  rcases hx with hx | ⟨i, hi, hx⟩ | ⟨i, hi, hx⟩
  · omega
  · exact lineLeaders_lt lines i hi x hx
  · exact elseLineLeaders_lt lines i x hx

lemma find_leaders_sorted (lines : List Chars) :
    List.Sorted (· < ·) (find_leaders lines) := by
  have h1 : List.Sorted (· ≤ ·) (find_leaders lines) :=
    List.sorted_insertionSort _ _
  have h2 : (find_leaders lines).Nodup :=
    ((List.perm_insertionSort _ _).nodup_iff).mpr (List.nodup_dedup _)
  exact h1.lt_of_le h2

lemma find_leaders_head (lines : List Chars) : ∃ t, find_leaders lines = 0 :: t := by
  have h0 := zero_mem_find_leaders lines
  rcases hL : find_leaders lines with _ | ⟨a, t⟩
  · rw [hL] at h0
    simp at h0
  · have hs := find_leaders_sorted lines
    rw [hL] at hs h0
    rcases List.mem_cons.mp h0 with h | h
    · exact ⟨t, by rw [h]⟩
    · exfalso
      have := (List.sorted_cons.mp hs).1 0 h
      omega

/- ------------------------------------------------------------------ -/
/- Basic-block lemmas                                                  -/
/- ------------------------------------------------------------------ -/

lemma cbb_map_startLine (lines : List Chars) :
    ∀ ls : List Nat, (create_basic_blocks lines ls).map BBlock.startLine = ls
  | [] => rfl
  | [_] => rfl
  | s :: t :: rest => by
    simp only [create_basic_blocks, List.map_cons]
    rw [cbb_map_startLine lines (t :: rest)]

lemma cbb_length (lines : List Chars) :
    ∀ ls : List Nat, (create_basic_blocks lines ls).length = ls.length
  | [] => rfl
  | [_] => rfl
  | s :: t :: rest => by
    simp only [create_basic_blocks, List.length_cons, cbb_length lines (t :: rest)]

lemma cbb_join (lines : List Chars) :
    ∀ (ls : List Nat) (s : Nat), List.Chain' (· < ·) (s :: ls) →
      (∀ x ∈ s :: ls, x ≤ lines.length) →
      ((create_basic_blocks lines (s :: ls)).map BBlock.code).flatten = lines.drop s
  | [], s, _, _ => by
    simp only [create_basic_blocks, List.map_cons, List.map_nil, List.flatten_cons,
      List.flatten_nil, List.append_nil]
    rw [← List.length_drop s lines, List.take_length]
  | t :: rest, s, hch, hb => by
    have hst : s < t := (List.chain'_cons.mp hch).1
    have IH := cbb_join lines rest t (List.chain'_cons.mp hch).2
      (fun x hx => hb x (List.mem_cons_of_mem s hx))
    have h1 : lines.drop t = (lines.drop s).drop (t - s) := by
      rw [List.drop_drop]
      congr 1
      omega
    simp only [create_basic_blocks, List.map_cons, List.flatten_cons, IH, h1]
    exact List.take_append_drop _ _

lemma cbb_head_startLine (lines : List Chars) (t : Nat) (rest : List Nat) :
    ∃ b tl, create_basic_blocks lines (t :: rest) = b :: tl ∧ b.startLine = t := by
  cases rest with
  | nil => exact ⟨_, _, rfl, rfl⟩
  | cons u rest' => exact ⟨_, _, rfl, rfl⟩

lemma cbb_chain_endLine (lines : List Chars) :
    ∀ ls : List Nat,
      List.Chain' (fun b b' => (b'.startLine : Int) = b.endLine + 1)
        (create_basic_blocks lines ls)
  | [] => List.chain'_nil
  | [_] => List.chain'_singleton _
  | s :: t :: rest => by
    obtain ⟨b, tl, heq, hstart⟩ := cbb_head_startLine lines t rest
    have IH := cbb_chain_endLine lines (t :: rest)
    rw [heq] at IH
    show List.Chain' _ (⟨(lines.drop s).take (t - s), s, (t : Int) - 1⟩ :: create_basic_blocks lines (t :: rest))
    rw [heq]
    exact List.chain'_cons.mpr ⟨by rw [hstart]; ring, IH⟩

/-- C3: for every non-empty line sequence the leader set contains index 0 and
the produced blocks partition the line range exactly: the concatenation of the
block codes is the whole line list (contiguous, no gaps or overlaps, every
line covered exactly once), the k-th block starts at the k-th leader, the
start lines are strictly increasing (so block id k is the rank in start-line
order), and each block starts right after the previous block's end line. -/
theorem C3_blocks_partition (lines : List Chars) (h : lines ≠ []) :
    0 ∈ find_leaders lines ∧
    ((create_basic_blocks lines (find_leaders lines)).map BBlock.code).flatten = lines ∧
    (create_basic_blocks lines (find_leaders lines)).map BBlock.startLine = find_leaders lines ∧
    List.Chain' (· < ·) ((create_basic_blocks lines (find_leaders lines)).map BBlock.startLine) ∧
    List.Chain' (fun b b' => (b'.startLine : Int) = b.endLine + 1)
      (create_basic_blocks lines (find_leaders lines)) := by
  obtain ⟨t, hL⟩ := find_leaders_head lines
  have hs := find_leaders_sorted lines
  have hb : ∀ x ∈ find_leaders lines, x ≤ lines.length := fun x hx =>
    le_of_lt (leadersList_lt lines h x ((mem_find_leaders lines x).mp hx))
  have hch : List.Chain' (· < ·) (find_leaders lines) := List.chain'_iff_pairwise.mpr hs
  refine ⟨zero_mem_find_leaders lines, ?_, cbb_map_startLine lines _, ?_, cbb_chain_endLine lines _⟩
  · rw [hL, cbb_join lines t 0 (hL ▸ hch) (hL ▸ hb), List.drop_zero]
  · rw [cbb_map_startLine]
    exact hch

/-- Witness for C3 at the concrete input ["x = 1;"]. -/
theorem C3_witness :
    (["x = 1;".data] : List Chars) ≠ [] ∧
    (0 ∈ find_leaders ["x = 1;".data] ∧
     ((create_basic_blocks ["x = 1;".data] (find_leaders ["x = 1;".data])).map BBlock.code).flatten
        = ["x = 1;".data] ∧
     (create_basic_blocks ["x = 1;".data] (find_leaders ["x = 1;".data])).map BBlock.startLine
        = find_leaders ["x = 1;".data] ∧
     List.Chain' (· < ·)
       ((create_basic_blocks ["x = 1;".data] (find_leaders ["x = 1;".data])).map BBlock.startLine) ∧
     List.Chain' (fun b b' => (b'.startLine : Int) = b.endLine + 1)
       (create_basic_blocks ["x = 1;".data] (find_leaders ["x = 1;".data]))) :=
  ⟨by decide, C3_blocks_partition _ (by decide)⟩

/- ------------------------------------------------------------------ -/
/- Concrete evaluations: C2, C8, C10, and the C1/C6 counterexamples    -/
/- ------------------------------------------------------------------ -/

/-- C2: evaluation at the failing input.  For the empty input (zero non-blank
lines) the leader set is [0] and create_basic_blocks emits exactly one block
with empty code (end_line -1), as claimed; build_cfg however evaluates
code[-1] of that empty block, which raises an IndexError (modelled by none),
so the CFG builder does NOT process the degenerate block without throwing. -/
theorem C2_empty_input_eval :
    find_leaders ([] : List Chars) = [0] ∧
    create_basic_blocks ([] : List Chars) (find_leaders []) = [⟨[], 0, -1⟩] ∧
    analysisCfg ([] : List Chars) = none :=
  ⟨by decide, by decide, by decide⟩

/-- C8 counterexample: on ["if (x > 0)", "y = 1;", "else \x7b", "y = 2;",
"\x7d"] the leader set is exactly [0, 1, 2] — three leaders, not four: no line
is marked a leader on account of the closing brace of the else (that brace is
the last line, index 4, so the claimed leader would be the nonexistent index
5, and 5 is not in the leader set). -/
theorem C8_counterexample :
    find_leaders
      ["if (x > 0)".data, "y = 1;".data, "else \x7b".data, "y = 2;".data, "\x7d".data]
      = [0, 1, 2] ∧
    5 ∉ find_leaders
      ["if (x > 0)".data, "y = 1;".data, "else \x7b".data, "y = 2;".data, "\x7d".data] :=
  ⟨by decide, by decide⟩

/-- C8 as amended: the scenario input produces leaders exactly at the if line
(0), the line after it (1) and the else line (2) — the closing brace of the
else is the last line, so no further leader exists — and the resulting CFG
gives the if block B0 exactly two outgoing edges, to the body block B1 and
the else block B2. -/
theorem C8_scenario :
    find_leaders
      ["if (x > 0)".data, "y = 1;".data, "else \x7b".data, "y = 2;".data, "\x7d".data]
      = [0, 1, 2] ∧
    analysisCfg
      ["if (x > 0)".data, "y = 1;".data, "else \x7b".data, "y = 2;".data, "\x7d".data]
      = some [[1, 2], [2], []] :=
  ⟨by decide, by decide⟩

/-- C10: a line whose identifier is followed by the equality comparison
operator is recorded as a definition of that identifier, because the
alternation of the assignment regex tries '=' first and so matches the first
character of '=='.  On input ["x == y;"] the definition finder records
exactly one definition, d1 of variable x in block B0. -/
theorem C10_eq_eq_definition :
    matchDef ("x == y;".data) = some ['x'] ∧
    analysisDefs ["x == y;".data] = [⟨1, ['x'], 0⟩] :=
  ⟨by decide, by decide⟩

/-- C1 counterexample: on ["x = 1;", "x = 2;"] the single block B0 contains
two definitions d1, d2 of the same variable x; compute_gen_kill puts both ids
in gen[B0] and both in kill[B0], so gen[B0] ∩ kill[B0] = \x7bd1, d2\x7d ≠ ∅,
refuting the claimed disjointness exactly in the two-definitions-one-block
case the claim includes. -/
theorem C1_counterexample :
    (analysisGenKill ["x = 1;".data, "x = 2;".data]).1 0 ∩
      (analysisGenKill ["x = 1;".data, "x = 2;".data]).2 0 = ({1, 2} : Finset Nat) ∧
    (analysisGenKill ["x = 1;".data, "x = 2;".data]).1 0 ∩
      (analysisGenKill ["x = 1;".data, "x = 2;".data]).2 0 ≠ (∅ : Finset Nat) :=
  ⟨by decide, by decide⟩

/-- C6 counterexample: ["return 0;", "x = 1;"] contains no if/while/for line
(so it is pure sequential code in the claim's sense), yet the computed graph
has N = 2 blocks and E = 0 edges — the return line suppresses the fallthrough
edge — so E ≠ N - 1 and the cyclomatic complexity is 0, not 1. -/
theorem C6_counterexample :
    ((["return 0;".data, "x = 1;".data] : List Chars).all
        (fun l => !isCondHead l)) = true ∧
    analysisCfg ["return 0;".data, "x = 1;".data] = some [[], []] ∧
    calculate_metrics [[], []] = (2, 0, 0) :=
  ⟨by decide, by decide, by decide⟩

/- ------------------------------------------------------------------ -/
/- C9: unresolved goto labels                                          -/
/- ------------------------------------------------------------------ -/

lemma getD_mem_of_lt (lines : List Chars) (i : Nat) (hi : i < lines.length) :
    lines.getD i [] ∈ lines := by
  rw [List.getD_eq_get lines [] hi]
  exact List.get_mem lines _ _

lemma gotoTargets_eq_nil (lines : List Chars) (line : Chars) (hline : line ∈ lines)
    (h : unresolvedGoto lines = true) : gotoTargets lines line = [] := by
  unfold gotoTargets
  rcases hgs : searchGoto line with _ | lab
  · rfl
  · have h1 := (List.all_eq_true.mp h) line hline
    rw [hgs] at h1
    have h2 := List.all_eq_true.mp h1
    apply List.filter_eq_nil.mpr
    intro j hj
    have hjlt : j < lines.length := List.mem_range.mp hj
    have h3 := h2 (lines.getD j []) (getD_mem_of_lt lines j hjlt)
    rw [Bool.not_eq_true'] at h3
    intro hc
    rw [h3] at hc
    exact Bool.false_ne_true hc

lemma lineLeaders_eq_noGoto (lines : List Chars) (i : Nat) (hi : i < lines.length)
    (h : unresolvedGoto lines = true) :
    lineLeaders lines i = lineLeadersNoGoto lines i := by
  unfold lineLeaders lineLeadersNoGoto
  rw [gotoTargets_eq_nil lines _ (getD_mem_of_lt lines i hi) h]
  simp

/-- C9: if the input contains goto statements but none of their labels begins
any line of the file, the leader detector returns a value (it cannot crash, as
it is a total function) and the goto-target rule contributes no leader: the
leader set is exactly what the remaining rules produce. -/
theorem C9_unresolved_goto (lines : List Chars) (h : unresolvedGoto lines = true) :
    find_leaders lines = findLeadersNoGoto lines := by
  have hfm : (List.range lines.length).flatMap (fun i => lineLeaders lines i)
      = (List.range lines.length).flatMap (fun i => lineLeadersNoGoto lines i) := by
    rw [List.flatMap_def, List.flatMap_def]
    congr 1
    apply List.map_congr_left
    intro i hi
    exact lineLeaders_eq_noGoto lines i (List.mem_range.mp hi) h
  unfold find_leaders findLeadersNoGoto leadersList
  rw [hfm]

/-- Witness for C9 at a concrete goto to an undefined label. -/
theorem C9_witness :
    unresolvedGoto ["goto missing;".data, "x = 1;".data] = true ∧
    find_leaders ["goto missing;".data, "x = 1;".data]
      = findLeadersNoGoto ["goto missing;".data, "x = 1;".data] :=
  ⟨by decide, C9_unresolved_goto _ (by decide)⟩

/- ------------------------------------------------------------------ -/
/- build_cfg structure lemmas and C7                                   -/
/- ------------------------------------------------------------------ -/

lemma optList_eq_map_some : ∀ {l : List (Option (List Nat))} {r : List (List Nat)},
    optList l = some r → l = r.map some
  | [], r, h => by
    rw [optList] at h
    injection h with h
    rw [← h]
    rfl
  | none :: rest, r, h => by
    rw [optList] at h
    exact absurd h (by simp)
  | some a :: rest, r, h => by
    rw [optList] at h
    rcases Option.map_eq_some'.mp h with ⟨r', hr', heq⟩
    rw [← heq, List.map_cons]
    rw [optList_eq_map_some hr']

lemma build_cfg_some_spec {blocks : List BBlock} {cfg : List (List Nat)}
    (h : build_cfg blocks = some cfg) :
    cfg.length = blocks.length ∧
    ∀ i, i < blocks.length →
      ∃ e, blockEdgesRaw blocks i = some e ∧ cfg.getD i [] = pySortEdges e := by
  unfold build_cfg at h
  rcases Option.map_eq_some'.mp h with ⟨cfgRaw, hcr, hmap⟩
  have hl := optList_eq_map_some hcr
  have hlen : blocks.length = cfgRaw.length := by
    have := congrArg List.length hl
    simpa using this
  constructor
  · rw [← hmap, List.length_map]
    omega
  · intro i hi
    have h1 : ((List.range blocks.length).map (blockEdgesRaw blocks)).get? i
        = (cfgRaw.map some).get? i := by rw [hl]
    rw [List.get?_map, List.get?_map, List.get?_range hi] at h1
    rcases hcri : cfgRaw.get? i with _ | e
    · rw [hcri] at h1
      simp at h1
    · rw [hcri] at h1
      simp only [Option.map_some'] at h1
      injection h1 with h1
      refine ⟨e, h1.symm ▸ rfl, ?_⟩
      rw [← hmap, List.getD_eq_get?, List.get?_map, hcri]
      rfl

lemma findElseGo_spec : ∀ (bs : List BBlock) (j : Nat) (r : Option Nat),
    findElseGo bs j = some r → specElseGo bs j = r
  | [], j, r, h => by
    rw [findElseGo] at h
    injection h
  | b :: bs, j, r, h => by
    rw [findElseGo] at h
    rcases hh : b.code.head? with _ | c0
    · simp only [hh] at h
      exact absurd h (by simp)
    · simp only [hh] at h
      have hD : b.code.headD [] = c0 := by
        rw [List.headD_eq_head?_getD, hh]
        rfl
      show (if hasSub elseChars (b.code.headD []) then some j else specElseGo bs (j + 1)) = r
      rw [hD]
      by_cases hs : hasSub elseChars c0 = true
      · rw [if_pos hs] at h ⊢
        injection h
      · rw [if_neg hs] at h ⊢
        exact findElseGo_spec bs (j + 1) r h

lemma findElseFrom_spec (blocks : List BBlock) (j : Nat) (r : Option Nat)
    (h : findElseFrom blocks j = some r) : specElseSearch blocks j = r :=
  findElseGo_spec _ _ _ h

/-- C7: for a block whose last line matches an if/while/for opening, build_cfg
produces exactly the edges the spec describes: an edge to the next block when
it exists, then an edge to the first later block whose first line contains
"else", or, if none, to the block two positions ahead when it exists — the
final per-block list being de-duplicated and sorted. -/
theorem C7_cond_edges (blocks : List BBlock) (cfg : List (List Nat))
    (h : build_cfg blocks = some cfg) (i : Nat) (hi : i < blocks.length)
    (l : Chars) (hl : ((blocks.getD i default).code).getLast? = some l)
    (hc : isCondHead l = true) :
    cfg.getD i [] = specCondEdges blocks i := by
  obtain ⟨-, hspec⟩ := build_cfg_some_spec h
  obtain ⟨e, he, hcfg⟩ := hspec i hi
  unfold blockEdgesRaw at he
  simp only [hl] at he
  rw [if_pos hc] at he
  unfold specCondEdges
  rcases hfe : findElseFrom blocks (i + 1) with _ | oj
  · simp only [hfe] at he
    exact absurd he (by simp)
  · simp only [hfe] at he
    have hss := findElseFrom_spec blocks (i + 1) oj hfe
    cases oj with
    | some j =>
      simp only [hss]
      injection he with he
      rw [hcfg, ← he]
    | none =>
      simp only [hss]
      injection he with he
      rw [hcfg, ← he]

/-- Witness for C7 at the concrete if/else scenario input. -/
theorem C7_witness :
    build_cfg (analysisBlocks
        ["if (x > 0)".data, "y = 1;".data, "else \x7b".data, "y = 2;".data, "\x7d".data])
      = some [[1, 2], [2], []] ∧
    0 < (analysisBlocks
        ["if (x > 0)".data, "y = 1;".data, "else \x7b".data, "y = 2;".data, "\x7d".data]).length ∧
    ((analysisBlocks
        ["if (x > 0)".data, "y = 1;".data, "else \x7b".data, "y = 2;".data, "\x7d".data]).getD
          0 default).code.getLast? = some ("if (x > 0)".data) ∧
    isCondHead ("if (x > 0)".data) = true ∧
    [[1, 2], [2], []].getD 0 [] = specCondEdges (analysisBlocks
        ["if (x > 0)".data, "y = 1;".data, "else \x7b".data, "y = 2;".data, "\x7d".data]) 0 :=
  ⟨by decide, by decide, by decide, by decide,
   C7_cond_edges
     (analysisBlocks
       ["if (x > 0)".data, "y = 1;".data, "else \x7b".data, "y = 2;".data, "\x7d".data])
     [[1, 2], [2], []] (by decide) 0 (by decide) ("if (x > 0)".data)
     (by decide) (by decide)⟩


/- ------------------------------------------------------------------ -/
/- C6: metrics and sequential graphs                                   -/
/- ------------------------------------------------------------------ -/

lemma getD_mem_lt {A : Type} (l : List A) (i : Nat) (d : A) (hi : i < l.length) :
    l.getD i d ∈ l := by
  rw [List.getD_eq_get l d hi]
  exact List.get_mem l _ _

lemma cbb_code_nonempty (lines : List Chars) :
    ∀ ls : List Nat, List.Chain' (· < ·) ls → (∀ x ∈ ls, x < lines.length) →
      ∀ b ∈ create_basic_blocks lines ls, b.code ≠ []
  | [], _, _ => by simp [create_basic_blocks]
  | [s], _, hb => by
    intro b hbm
    simp only [create_basic_blocks, List.mem_singleton] at hbm
    subst hbm
    have hs : s < lines.length := hb s (List.mem_singleton_self s)
    intro hc
    rcases List.take_eq_nil_iff.mp hc with hc' | hc'
    · omega
    · have := List.drop_eq_nil_iff_le.mp hc'
      omega
  | s :: t :: rest, hch, hb => by
    intro b hbm
    rcases List.mem_cons.mp hbm with hbm | hbm
    · subst hbm
      have hst : s < t := (List.chain'_cons.mp hch).1
      have hs : s < lines.length := hb s (List.mem_cons_self _ _)
      intro hc
      rcases List.take_eq_nil_iff.mp hc with hc' | hc'
      · omega
      · have := List.drop_eq_nil_iff_le.mp hc'
        omega
    · exact cbb_code_nonempty lines (t :: rest) (List.chain'_cons.mp hch).2
        (fun x hx => hb x (List.mem_cons_of_mem s hx)) b hbm

lemma cbb_code_mem (lines : List Chars) :
    ∀ ls : List Nat, ∀ b ∈ create_basic_blocks lines ls, ∀ c ∈ b.code, c ∈ lines
  | [] => by simp [create_basic_blocks]
  | [s] => by
    intro b hbm c hc
    simp only [create_basic_blocks, List.mem_singleton] at hbm
    subst hbm
    exact List.mem_of_mem_drop (List.mem_of_mem_take hc)
  | s :: t :: rest => by
    intro b hbm c hc
    rcases List.mem_cons.mp hbm with hbm | hbm
    · subst hbm
      exact List.mem_of_mem_drop (List.mem_of_mem_take hc)
    · exact cbb_code_mem lines (t :: rest) b hbm c hc

lemma analysisBlocks_code_nonempty (lines : List Chars) (h0 : lines ≠ []) :
    ∀ b ∈ analysisBlocks lines, b.code ≠ [] := by
  apply cbb_code_nonempty
  · exact List.chain'_iff_pairwise.mpr (find_leaders_sorted lines)
  · intro x hx
    exact leadersList_lt lines h0 x ((mem_find_leaders lines x).mp hx)

lemma analysisBlocks_code_mem (lines : List Chars) :
    ∀ b ∈ analysisBlocks lines, ∀ c ∈ b.code, c ∈ lines :=
  cbb_code_mem lines _

lemma analysisBlocks_length_pos (lines : List Chars) :
    0 < (analysisBlocks lines).length := by
  unfold analysisBlocks
  rw [cbb_length]
  obtain ⟨t, ht⟩ := find_leaders_head lines
  rw [ht]
  simp

lemma C6_block_edges (lines : List Chars) (h0 : lines ≠ [])
    (h1 : lines.all seqLine = true)
    (i : Nat) (hi : i < (analysisBlocks lines).length) :
    ∃ e, blockEdgesRaw (analysisBlocks lines) i = some e ∧
      e.length = (if i + 1 < (analysisBlocks lines).length then 1 else 0) := by
  have hbmem : (analysisBlocks lines).getD i default ∈ analysisBlocks lines :=
    getD_mem_lt _ _ _ hi
  have hne : ((analysisBlocks lines).getD i default).code ≠ [] :=
    analysisBlocks_code_nonempty lines h0 _ hbmem
  rcases hlast : ((analysisBlocks lines).getD i default).code.getLast? with _ | l
  · exact absurd (List.getLast?_eq_none_iff.mp hlast) hne
  · have hlmem : l ∈ lines :=
      analysisBlocks_code_mem lines _ hbmem l (List.mem_of_getLast?_eq_some hlast)
    have hl4 := (List.all_eq_true.mp h1) l hlmem
    unfold seqLine at hl4
    simp only [Bool.and_eq_true, Bool.not_eq_true'] at hl4
    obtain ⟨⟨⟨hcond, hret⟩, hbrk⟩, hgt⟩ := hl4
    rcases hhead : ((analysisBlocks lines).getD i default).code.head? with _ | c0
    · exact absurd (List.head?_eq_none_iff.mp hhead) hne
    · unfold blockEdgesRaw
      simp only [hlast]
      rw [if_neg (show ¬(isCondHead l = true) by rw [hcond]; exact Bool.false_ne_true)]
      simp only [hhead]
      by_cases hec : (hasSub elseChars c0 || hasSub caseChars c0) = true
      · rw [if_pos hec]
        refine ⟨_, rfl, ?_⟩
        by_cases h2 : i + 2 < (analysisBlocks lines).length
        · rw [if_pos h2, if_pos (by omega)]
          rfl
        · rw [if_neg h2]
          by_cases hn1 : i + 1 < (analysisBlocks lines).length
          · rw [if_pos hn1, if_pos hn1]
            rfl
          · rw [if_neg hn1, if_neg hn1]
            rfl
      · rw [if_neg hec]
        rw [if_neg (show ¬((hasSub returnChars l || hasSub breakChars l ||
              hasSub gotoChars l) = true) by rw [hret, hbrk, hgt]; simp)]
        refine ⟨_, rfl, ?_⟩
        by_cases hn1 : i + 1 < (analysisBlocks lines).length
        · rw [if_pos hn1, if_pos hn1]
          rfl
        · rw [if_neg hn1, if_neg hn1]
          rfl

lemma optList_of_forall : ∀ l : List (Option (List Nat)),
    (∀ x ∈ l, x ≠ none) → ∃ r, optList l = some r
  | [], _ => ⟨[], rfl⟩
  | none :: rest, h => absurd rfl (h none (List.mem_cons_self _ _))
  | some a :: rest, h => by
    obtain ⟨r', hr'⟩ := optList_of_forall rest (fun x hx => h x (List.mem_cons_of_mem _ hx))
    exact ⟨a :: r', by rw [optList, hr']; rfl⟩

lemma pySortEdges_short : ∀ e : List Nat, e.length ≤ 1 → pySortEdges e = e
  | [], _ => rfl
  | [x], _ => by
    show sortByBid (List.dedup [x]) = [x]
    rw [List.dedup_cons_of_not_mem (by simp), List.dedup_nil]
    rfl
  | x :: y :: t, h => by simp at h

lemma map_len_eq_range (L : List (List Nat)) :
    L.map List.length = (List.range L.length).map (fun i => (L.getD i []).length) := by
  apply List.ext_get
  · simp
  · intro i h1 h2
    simp only [List.get_map]
    rw [List.get_range]
    rw [List.getD_eq_get L [] (by simpa using h1)]

lemma sum_ite_range (n : Nat) (hn : 0 < n) :
    ((List.range n).map (fun i => if i + 1 < n then 1 else 0)).sum = n - 1 := by
  obtain ⟨m, rfl⟩ : ∃ m, n = m + 1 := ⟨n - 1, by omega⟩
  rw [List.range_succ, List.map_append, List.sum_append]
  simp only [List.map_cons, List.map_nil, List.sum_cons, List.sum_nil]
  rw [if_neg (by omega)]
  have hmap : (List.range m).map (fun i => if i + 1 < m + 1 then 1 else 0)
      = (List.range m).map (fun _ => 1) := by
    apply List.map_congr_left
    intro i hi
    rw [if_pos (by have := List.mem_range.mp hi; omega)]
  rw [hmap, List.map_const', List.length_range, List.sum_const_nat]
  simp

/-- C6 as amended: calculate_metrics returns (N, E, E - N + 2) for every
graph; and for every non-empty input in which no line opens an if/while/for
and no line contains return, break or goto, build_cfg succeeds and the graph
satisfies E = N - 1 and cyclomatic complexity 1. -/
theorem C6_metrics (lines : List Chars) (h0 : lines ≠ [])
    (h1 : lines.all seqLine = true) :
    (∀ g : List (List Nat), calculate_metrics g
        = (g.length, (g.map List.length).sum,
           ((g.map List.length).sum : Int) - (g.length : Int) + 2)) ∧
    ∃ cfg, analysisCfg lines = some cfg ∧
      cfg.length = (analysisBlocks lines).length ∧
      calculate_metrics cfg = (cfg.length, cfg.length - 1, 1) := by
  refine ⟨fun g => rfl, ?_⟩
  have hsome : ∀ x ∈ (List.range (analysisBlocks lines).length).map
      (blockEdgesRaw (analysisBlocks lines)), x ≠ none := by
    intro x hx
    rcases List.mem_map.mp hx with ⟨i, hi, hxeq⟩
    obtain ⟨e, he, -⟩ := C6_block_edges lines h0 h1 i (List.mem_range.mp hi)
    rw [← hxeq, he]
    simp
  obtain ⟨r, hr⟩ := optList_of_forall _ hsome
  have hcfg : build_cfg (analysisBlocks lines) = some (r.map pySortEdges) := by
    unfold build_cfg
    rw [hr]
    rfl
  obtain ⟨hlen, hspec⟩ := build_cfg_some_spec hcfg
  have hn1 : 0 < (analysisBlocks lines).length := analysisBlocks_length_pos lines
  have hlens : ∀ i, i < (analysisBlocks lines).length →
      ((r.map pySortEdges).getD i []).length
        = (if i + 1 < (analysisBlocks lines).length then 1 else 0) := by
    intro i hi
    obtain ⟨e, he, hgd⟩ := hspec i hi
    obtain ⟨e', he', hlen'⟩ := C6_block_edges lines h0 h1 i hi
    rw [he] at he'
    injection he' with he'
    rw [← he'] at hlen'
    rw [hgd, pySortEdges_short e (by split at hlen' <;> omega)]
    exact hlen'
  refine ⟨r.map pySortEdges, hcfg, hlen, ?_⟩
  have hE : ((r.map pySortEdges).map List.length).sum
      = (analysisBlocks lines).length - 1 := by
    rw [map_len_eq_range, hlen]
    rw [List.map_congr_left (fun i hi => hlens i (List.mem_range.mp hi))]
    exact sum_ite_range _ hn1
  unfold calculate_metrics
  rw [hE, hlen]
  refine Prod.ext rfl (Prod.ext rfl ?_)
  simp only []
  omega

/-- Witness for C6 at the concrete sequential input ["x = 1;", "y = 2;"]. -/
theorem C6_witness :
    ((["x = 1;".data, "y = 2;".data] : List Chars) ≠ []) ∧
    ((["x = 1;".data, "y = 2;".data] : List Chars).all seqLine = true) ∧
    ((∀ g : List (List Nat), calculate_metrics g
        = (g.length, (g.map List.length).sum,
           ((g.map List.length).sum : Int) - (g.length : Int) + 2)) ∧
     ∃ cfg, analysisCfg ["x = 1;".data, "y = 2;".data] = some cfg ∧
       cfg.length = (analysisBlocks ["x = 1;".data, "y = 2;".data]).length ∧
       calculate_metrics cfg = (cfg.length, cfg.length - 1, 1)) :=
  ⟨by decide, by decide, C6_metrics _ (by decide) (by decide)⟩

/- ------------------------------------------------------------------ -/
/- C1: gen/kill disjointness under unique per-block variables          -/
/- ------------------------------------------------------------------ -/

lemma defsInLines_ids : ∀ (ls : List Chars) (blk start : Nat),
    (defsInLines blk start ls).map Defn.id
      = List.range' start (defsInLines blk start ls).length
  | [], _, _ => rfl
  | l :: ls, blk, start => by
    rw [defsInLines]
    rcases h : matchDef l with _ | v
    · simp only [h]
      exact defsInLines_ids ls blk start
    · simp only [h, List.map_cons, List.length_cons]
      rw [defsInLines_ids ls blk (start + 1)]
      rw [List.range'_succ start (defsInLines blk (start + 1) ls).length 1]

lemma findDefsFrom_ids : ∀ (bs : List BBlock) (bi cnt : Nat),
    (findDefsFrom bi cnt bs).map Defn.id
      = List.range' cnt (findDefsFrom bi cnt bs).length
  | [], _, _ => rfl
  | b :: bs, bi, cnt => by
    rw [findDefsFrom]
    rw [List.map_append, List.length_append]
    rw [defsInLines_ids b.code bi cnt]
    rw [findDefsFrom_ids bs (bi + 1) (cnt + (defsInLines bi cnt b.code).length)]
    have h := List.range'_append cnt (defsInLines bi cnt b.code).length
      (findDefsFrom (bi + 1) (cnt + (defsInLines bi cnt b.code).length) bs).length 1
    rw [one_mul] at h
    rw [h, Nat.add_comm]

lemma find_definitions_ids (blocks : List BBlock) :
    (find_definitions blocks).map Defn.id
      = List.range' 1 (find_definitions blocks).length :=
  findDefsFrom_ids blocks 0 1

lemma mem_varDefs {defs : List Defn} {v : Chars} {x : Nat} :
    x ∈ varDefs defs v ↔ ∃ f, f ∈ defs ∧ f.var = v ∧ f.id = x := by
  unfold varDefs
  rw [List.mem_toFinset]
  simp only [List.mem_map, List.mem_filter, decide_eq_true_eq]
  constructor
  · rintro ⟨f, ⟨hf, hfv⟩, hfx⟩
    exact ⟨f, hf, hfv, hfx⟩
  · rintro ⟨f, hf, hfv, hfx⟩
    exact ⟨f, ⟨hf, hfv⟩, hfx⟩

lemma gk_invariant (nB : Nat) (defs : List Defn)
    (hinj : ∀ d ∈ defs, ∀ e ∈ defs, d.id = e.id → d = e) :
    ∀ (todo : List Defn) (gk : (Nat → Finset Nat) × (Nat → Finset Nat)),
      (∀ x ∈ todo, x ∈ defs) →
      (∀ b x, x ∈ gk.1 b → ∃ d, d ∈ defs ∧ d.blk = b ∧ d.id = x) →
      (∀ b x, x ∈ gk.2 b →
        ∃ e, e ∈ defs ∧ e.blk = b ∧ x ∈ varDefs defs e.var ∧ x ≠ e.id) →
      (∀ b x, x ∈ (todo.foldl (gkStep nB defs) gk).1 b →
        ∃ d, d ∈ defs ∧ d.blk = b ∧ d.id = x) ∧
      (∀ b x, x ∈ (todo.foldl (gkStep nB defs) gk).2 b →
        ∃ e, e ∈ defs ∧ e.blk = b ∧ x ∈ varDefs defs e.var ∧ x ≠ e.id)
  | [], gk, _, hg, hk => ⟨hg, hk⟩
  | d :: todo, gk, hmem, hg, hk => by
    have hd : d ∈ defs := hmem d (List.mem_cons_self _ _)
    refine gk_invariant nB defs hinj todo (gkStep nB defs gk d)
      (fun x hx => hmem x (List.mem_cons_of_mem _ hx)) ?_ ?_
    · intro b x hx
      by_cases hb : b = d.blk
      · subst hb
        rw [show (gkStep nB defs gk d).1 d.blk
              = insert d.id (gk.1 d.blk) from Function.update_same _ _ _] at hx
        rcases Finset.mem_insert.mp hx with hx | hx
        · exact ⟨d, hd, rfl, hx.symm⟩
        · exact hg d.blk x hx
      · rw [show (gkStep nB defs gk d).1 b = gk.1 b from
          Function.update_noteq hb _ _] at hx
        exact hg b x hx
    · intro b x hx
      by_cases hcond : b < nB ∧
          d.id ∈ Function.update gk.1 d.blk (insert d.id (gk.1 d.blk)) b
      · rw [show (gkStep nB defs gk d).2 b
              = gk.2 b ∪ (varDefs defs d.var \ {d.id}) from if_pos hcond] at hx
        rcases Finset.mem_union.mp hx with hx | hx
        · exact hk b x hx
        · have hbd : b = d.blk := by
            by_cases hb : b = d.blk
            · exact hb
            · exfalso
              have h2 := hcond.2
              rw [Function.update_noteq hb] at h2
              obtain ⟨d', hd', hd'b, hd'id⟩ := hg b d.id h2
              have hdd : d' = d := hinj d' hd' d hd hd'id
              rw [hdd] at hd'b
              exact hb hd'b.symm
          rcases Finset.mem_sdiff.mp hx with ⟨hxv, hxne⟩
          refine ⟨d, hd, hbd.symm, hxv, ?_⟩
          intro hc
          exact hxne (Finset.mem_singleton.mpr hc)
      · rw [show (gkStep nB defs gk d).2 b = gk.2 b from if_neg hcond] at hx
        exact hk b x hx

/-- C1 as amended: for every analysis run in which no block contains two or
more definitions of the same variable, gen[B] and kill[B] are disjoint for
every block B. -/
theorem C1_gen_kill_disjoint (lines : List Chars)
    (h : ((analysisDefs lines).all (fun d => (analysisDefs lines).all (fun e =>
        decide (d.blk = e.blk ∧ d.var = e.var → d.id = e.id)))) = true)
    (b : Nat) :
    (analysisGenKill lines).1 b ∩ (analysisGenKill lines).2 b = ∅ := by
  have hids : (analysisDefs lines).map Defn.id
      = List.range' 1 (analysisDefs lines).length := find_definitions_ids _
  have hnodup : ((analysisDefs lines).map Defn.id).Nodup := by
    rw [hids]
    exact List.nodup_range' _ _
  have hinj : ∀ d ∈ analysisDefs lines, ∀ e ∈ analysisDefs lines,
      d.id = e.id → d = e := List.inj_on_of_nodup_map hnodup
  have hprop : ∀ d ∈ analysisDefs lines, ∀ e ∈ analysisDefs lines,
      d.blk = e.blk → d.var = e.var → d.id = e.id := by
    intro d hd e he hb hv
    have h2 := (List.all_eq_true.mp ((List.all_eq_true.mp h) d hd)) e he
    rw [decide_eq_true_eq] at h2
    exact h2 ⟨hb, hv⟩
  obtain ⟨hgen, hkill⟩ := gk_invariant (analysisBlocks lines).length
    (analysisDefs lines) hinj (analysisDefs lines) (fun _ => ∅, fun _ => ∅)
    (fun x hx => hx)
    (by intro b x hx; simp at hx) (by intro b x hx; simp at hx)
  rw [Finset.eq_empty_iff_forall_not_mem]
  intro x hx
  rw [Finset.mem_inter] at hx
  obtain ⟨d, hd, hdb, hdid⟩ := hgen b x hx.1
  obtain ⟨e, he, heb, hxvar, hxne⟩ := hkill b x hx.2
  obtain ⟨f, hf, hfvar, hfid⟩ := mem_varDefs.mp hxvar
  have hfd : f = d := hinj f hf d hd (by rw [hfid, hdid])
  have hide : d.id = e.id := by
    refine hprop d hd e he (by rw [hdb, heb]) ?_
    rw [← hfd]
    exact hfvar
  apply hxne
  rw [← hdid, hide]

/-- Witness for C1 at the concrete input ["x = 1;", "y = 2;"], whose two
definitions are of distinct variables. -/
theorem C1_witness :
    (((analysisDefs ["x = 1;".data, "y = 2;".data]).all (fun d =>
        (analysisDefs ["x = 1;".data, "y = 2;".data]).all (fun e =>
          decide (d.blk = e.blk ∧ d.var = e.var → d.id = e.id)))) = true) ∧
    (analysisGenKill ["x = 1;".data, "y = 2;".data]).1 0 ∩
      (analysisGenKill ["x = 1;".data, "y = 2;".data]).2 0 = ∅ :=
  ⟨by decide, C1_gen_kill_disjoint _ (by decide) 0⟩

/- ------------------------------------------------------------------ -/
/- C4: idempotence of the solver at its fixpoint                       -/
/- ------------------------------------------------------------------ -/

lemma foldl_changed_false (preds : List (List Nat)) (gen kill : Nat → Finset Nat) :
    ∀ (bs : List Nat) (st : DFState),
      (bs.foldl (dfStep preds gen kill) st).changed = false → st.changed = false
  | [], _, h => h
  | b :: bs, st, h => by
    have h2 := foldl_changed_false preds gen kill bs (dfStep preds gen kill st b) h
    have h3 : (st.changed || decide ((gen b ∪ (inAt preds st.outs b \ kill b))
        ≠ st.outs b)) = false := h2
    rw [Bool.or_eq_false_iff] at h3
    exact h3.1

lemma foldl_nochange (preds : List (List Nat)) (gen kill : Nat → Finset Nat) :
    ∀ (bs : List Nat) (st : DFState),
      (bs.foldl (dfStep preds gen kill) st).changed = false →
      (∀ b ∈ bs, outAt preds gen kill st.outs b = st.outs b) ∧
      (bs.foldl (dfStep preds gen kill) st).outs = st.outs
  | [], st, _ => ⟨fun b hb => absurd hb (List.not_mem_nil b), rfl⟩
  | b :: bs, st, h => by
    have hch' : (dfStep preds gen kill st b).changed = false :=
      foldl_changed_false preds gen kill bs _ h
    have h3 : (st.changed || decide ((gen b ∪ (inAt preds st.outs b \ kill b))
        ≠ st.outs b)) = false := hch'
    rw [Bool.or_eq_false_iff] at h3
    have hno : outAt preds gen kill st.outs b = st.outs b := by
      have := h3.2
      rw [decide_eq_false_iff_not] at this
      rw [not_ne_iff] at this
      exact this
    have houts' : (dfStep preds gen kill st b).outs = st.outs := by
      show Function.update st.outs b (gen b ∪ (inAt preds st.outs b \ kill b)) = st.outs
      rw [show gen b ∪ (inAt preds st.outs b \ kill b)
            = outAt preds gen kill st.outs b from rfl, hno]
      exact Function.update_eq_self _ _
    obtain ⟨hrest, houts⟩ := foldl_nochange preds gen kill bs (dfStep preds gen kill st b) h
    refine ⟨?_, by rw [List.foldl_cons, houts, houts']⟩
    intro b' hb'
    rcases List.mem_cons.mp hb' with hb' | hb'
    · rw [hb']
      exact hno
    · have h4 := hrest b' hb'
      rw [houts'] at h4
      exact h4

lemma foldl_fixed (preds : List (List Nat)) (gen kill : Nat → Finset Nat) :
    ∀ (bs : List Nat) (st : DFState),
      (∀ b ∈ bs, outAt preds gen kill st.outs b = st.outs b) →
      bs.foldl (dfStep preds gen kill) st
        = ⟨bs.foldl (fun m b => Function.update m b (inAt preds st.outs b)) st.ins,
           st.outs, st.changed⟩
  | [], st, _ => rfl
  | b :: bs, st, hfix => by
    have hb : gen b ∪ (inAt preds st.outs b \ kill b) = st.outs b :=
      hfix b (List.mem_cons_self _ _)
    have hstep : dfStep preds gen kill st b
        = ⟨Function.update st.ins b (inAt preds st.outs b), st.outs, st.changed⟩ := by
      unfold dfStep
      rw [hb, Function.update_eq_self]
      simp
    rw [List.foldl_cons, List.foldl_cons, hstep]
    exact foldl_fixed preds gen kill bs
      ⟨Function.update st.ins b (inAt preds st.outs b), st.outs, st.changed⟩
      (fun b' hb' => hfix b' (List.mem_cons_of_mem _ hb'))

lemma updMany_apply (preds : List (List Nat)) (O : Nat → Finset Nat) :
    ∀ (bs : List Nat) (m : Nat → Finset Nat) (x : Nat),
      (bs.foldl (fun m b => Function.update m b (inAt preds O b)) m) x
        = if x ∈ bs then inAt preds O x else m x
  | [], m, x => by simp
  | b :: bs, m, x => by
    rw [List.foldl_cons]
    rw [updMany_apply preds O bs (Function.update m b (inAt preds O b)) x]
    by_cases hx : x ∈ bs
    · rw [if_pos hx, if_pos (List.mem_cons_of_mem _ hx)]
    · rw [if_neg hx]
      by_cases hxb : x = b
      · rw [hxb, Function.update_same, if_pos (List.mem_cons_self _ _)]
      · rw [Function.update_noteq hxb, if_neg (by simp [hxb, hx])]

/-- C4: the solver is idempotent at its fixpoint.  If a full pass (in block-id
order, with in[B] the union of predecessor outs and out[B] = gen[B] ∪ (in[B] -
kill[B])) reports no change of any out set, then running one more full pass
returns the very same state: all in and out sets are unchanged. -/
theorem C4_solver_idempotent (n : Nat) (preds : List (List Nat))
    (gen kill : Nat → Finset Nat) (st : DFState)
    (h : (fullPass n preds gen kill st).changed = false) :
    fullPass n preds gen kill (fullPass n preds gen kill st)
      = fullPass n preds gen kill st := by
  obtain ⟨hfix, houts⟩ := foldl_nochange preds gen kill (List.range n)
    ⟨st.ins, st.outs, false⟩ h
  have hs1 : fullPass n preds gen kill st
      = ⟨(List.range n).foldl (fun m b => Function.update m b (inAt preds st.outs b)) st.ins,
         st.outs, false⟩ :=
    foldl_fixed preds gen kill (List.range n) ⟨st.ins, st.outs, false⟩ hfix
  have h2 : fullPass n preds gen kill (fullPass n preds gen kill st)
      = ⟨(List.range n).foldl (fun m b => Function.update m b (inAt preds st.outs b))
           ((List.range n).foldl (fun m b => Function.update m b (inAt preds st.outs b)) st.ins),
         st.outs, false⟩ := by
    rw [hs1]
    exact foldl_fixed preds gen kill (List.range n) _ hfix
  rw [h2, hs1]
  have hins : (List.range n).foldl (fun m b => Function.update m b (inAt preds st.outs b))
        ((List.range n).foldl (fun m b => Function.update m b (inAt preds st.outs b)) st.ins)
      = (List.range n).foldl (fun m b => Function.update m b (inAt preds st.outs b)) st.ins := by
    funext x
    rw [updMany_apply, updMany_apply]
    by_cases hx : x ∈ List.range n
    · simp [hx]
    · simp [hx]
  rw [hins]

/-- Witness for C4 at a one-block instance whose first pass already reports no
change. -/
theorem C4_witness :
    (fullPass 1 [[]] (fun _ => (∅ : Finset Nat)) (fun _ => ∅) dfInit).changed = false ∧
    fullPass 1 [[]] (fun _ => (∅ : Finset Nat)) (fun _ => ∅)
        (fullPass 1 [[]] (fun _ => ∅) (fun _ => ∅) dfInit)
      = fullPass 1 [[]] (fun _ => ∅) (fun _ => ∅) dfInit :=
  ⟨by decide, C4_solver_idempotent 1 [[]] (fun _ => ∅) (fun _ => ∅) dfInit (by decide)⟩

/- ------------------------------------------------------------------ -/
/- C5: termination of the solver                                       -/
/- ------------------------------------------------------------------ -/

lemma foldl_outs_eq (preds : List (List Nat)) (gen kill : Nat → Finset Nat) :
    ∀ (bs : List Nat) (st : DFState),
      (bs.foldl (dfStep preds gen kill) st).outs
        = bs.foldl (stepOuts preds gen kill) st.outs
  | [], _ => rfl
  | b :: bs, st => by
    rw [List.foldl_cons, List.foldl_cons]
    rw [foldl_outs_eq preds gen kill bs (dfStep preds gen kill st b)]
    rfl

lemma foldl_union_mono (O O' : Nat → Finset Nat) (h : ∀ x, O x ⊆ O' x) :
    ∀ (l : List Nat) (a a' : Finset Nat), a ⊆ a' →
      l.foldl (fun acc p => acc ∪ O p) a ⊆ l.foldl (fun acc p => acc ∪ O' p) a'
  | [], _, _, ha => ha
  | p :: l, a, a', ha =>
    foldl_union_mono O O' h l _ _ (Finset.union_subset_union ha (h p))

lemma inAt_mono (preds : List (List Nat)) (O O' : Nat → Finset Nat)
    (h : ∀ x, O x ⊆ O' x) (b : Nat) : inAt preds O b ⊆ inAt preds O' b :=
  foldl_union_mono O O' h _ _ _ (subset_refl ∅)

lemma outAt_mono (preds : List (List Nat)) (gen kill : Nat → Finset Nat)
    (O O' : Nat → Finset Nat) (h : ∀ x, O x ⊆ O' x) (b : Nat) :
    outAt preds gen kill O b ⊆ outAt preds gen kill O' b :=
  Finset.union_subset_union (subset_refl _)
    (Finset.sdiff_subset_sdiff (inAt_mono preds O O' h b) (subset_refl _))

lemma stepOuts_mono (preds : List (List Nat)) (gen kill : Nat → Finset Nat)
    (O O' : Nat → Finset Nat) (h : ∀ x, O x ⊆ O' x) (b : Nat) :
    ∀ x, stepOuts preds gen kill O b x ⊆ stepOuts preds gen kill O' b x := by
  intro x
  unfold stepOuts
  by_cases hxb : x = b
  · rw [hxb, Function.update_same, Function.update_same]
    exact outAt_mono preds gen kill O O' h b
  · rw [Function.update_noteq hxb, Function.update_noteq hxb]
    exact h x

lemma foldl_stepOuts_mono (preds : List (List Nat)) (gen kill : Nat → Finset Nat) :
    ∀ (bs : List Nat) (O O' : Nat → Finset Nat), (∀ x, O x ⊆ O' x) →
      ∀ x, (bs.foldl (stepOuts preds gen kill) O) x
        ⊆ (bs.foldl (stepOuts preds gen kill) O') x
  | [], _, _, h, x => h x
  | b :: bs, O, O', h, x =>
    foldl_stepOuts_mono preds gen kill bs _ _ (stepOuts_mono preds gen kill O O' h b) x

lemma iter_le_succ (n : Nat) (preds : List (List Nat)) (gen kill : Nat → Finset Nat) :
    ∀ (k : Nat) (x : Nat),
      ((passOuts n preds gen kill)^[k] (fun _ => ∅)) x
        ⊆ ((passOuts n preds gen kill)^[k + 1] (fun _ => ∅)) x
  | 0, x => by
    rw [Function.iterate_zero_apply]
    exact Finset.empty_subset _
  | k + 1, x => by
    rw [Function.iterate_succ_apply', Function.iterate_succ_apply']
    exact foldl_stepOuts_mono preds gen kill (List.range n) _ _
      (iter_le_succ n preds gen kill k) x

lemma foldl_union_subset_U (O : Nat → Finset Nat) (U : Finset Nat)
    (hO : ∀ x, O x ⊆ U) :
    ∀ (l : List Nat) (a : Finset Nat), a ⊆ U →
      l.foldl (fun acc p => acc ∪ O p) a ⊆ U
  | [], _, ha => ha
  | p :: l, a, ha =>
    foldl_union_subset_U O U hO l _ (Finset.union_subset ha (hO p))

lemma foldl_stepOuts_subset_U (preds : List (List Nat)) (gen kill : Nat → Finset Nat)
    (U : Finset Nat) :
    ∀ bs : List Nat, (∀ b ∈ bs, gen b ⊆ U) →
      ∀ O : Nat → Finset Nat, (∀ x, O x ⊆ U) →
      ∀ x, (bs.foldl (stepOuts preds gen kill) O) x ⊆ U
  | [], _, _, hO, x => hO x
  | b :: bs, hg, O, hO, x => by
    rw [List.foldl_cons]
    apply foldl_stepOuts_subset_U preds gen kill U bs
      (fun b' hb' => hg b' (List.mem_cons_of_mem _ hb'))
    intro y
    unfold stepOuts
    by_cases hyb : y = b
    · rw [hyb, Function.update_same]
      apply Finset.union_subset (hg b (List.mem_cons_self _ _))
      exact subset_trans Finset.sdiff_subset
        (foldl_union_subset_U O U hO _ _ (Finset.empty_subset U))
    · rw [Function.update_noteq hyb]
      exact hO y

lemma iter_subset_U (n : Nat) (preds : List (List Nat)) (gen kill : Nat → Finset Nat)
    (U : Finset Nat) (hg : ∀ b ∈ List.range n, gen b ⊆ U) :
    ∀ (k : Nat) (x : Nat), ((passOuts n preds gen kill)^[k] (fun _ => ∅)) x ⊆ U
  | 0, x => by
    rw [Function.iterate_zero_apply]
    exact Finset.empty_subset _
  | k + 1, x => by
    rw [Function.iterate_succ_apply']
    exact foldl_stepOuts_subset_U preds gen kill U (List.range n) hg _
      (iter_subset_U n preds gen kill U hg k) x

lemma foldl_stepOuts_untouched (preds : List (List Nat)) (gen kill : Nat → Finset Nat) :
    ∀ (bs : List Nat) (O : Nat → Finset Nat) (x : Nat), x ∉ bs →
      (bs.foldl (stepOuts preds gen kill) O) x = O x
  | [], _, _, _ => rfl
  | b :: bs, O, x, hx => by
    rw [List.foldl_cons]
    rw [foldl_stepOuts_untouched preds gen kill bs _ x
      (fun h => hx (List.mem_cons_of_mem _ h))]
    exact Function.update_noteq
      (fun h => hx (by rw [h]; exact List.mem_cons_self _ _)) _ _

lemma foldl_changed_of_outs_eq (preds : List (List Nat)) (gen kill : Nat → Finset Nat) :
    ∀ bs : List Nat, bs.Nodup → ∀ st : DFState, st.changed = false →
      (bs.foldl (dfStep preds gen kill) st).outs = st.outs →
      (bs.foldl (dfStep preds gen kill) st).changed = false
  | [], _, _, hch, _ => hch
  | b :: bs, hnd, st, hch, houts => by
    obtain ⟨hbnotin, hnd'⟩ := List.nodup_cons.mp hnd
    rw [List.foldl_cons] at houts ⊢
    have huntouch : (bs.foldl (dfStep preds gen kill) (dfStep preds gen kill st b)).outs b
        = (dfStep preds gen kill st b).outs b := by
      rw [foldl_outs_eq]
      exact foldl_stepOuts_untouched preds gen kill bs _ b hbnotin
    have hb1 : (dfStep preds gen kill st b).outs b
        = gen b ∪ (inAt preds st.outs b \ kill b) := Function.update_same _ _ _
    have hno : gen b ∪ (inAt preds st.outs b \ kill b) = st.outs b := by
      rw [← hb1, ← huntouch, houts]
    have hstouts : (dfStep preds gen kill st b).outs = st.outs := by
      show Function.update st.outs b _ = st.outs
      rw [hno]
      exact Function.update_eq_self _ _
    have hch' : (dfStep preds gen kill st b).changed = false := by
      show (st.changed || decide ((gen b ∪ (inAt preds st.outs b \ kill b))
        ≠ st.outs b)) = false
      rw [hch, hno]
      simp
    exact foldl_changed_of_outs_eq preds gen kill bs hnd' _ hch'
      (houts.trans hstouts.symm)

lemma pass_outs (n : Nat) (preds : List (List Nat)) (gen kill : Nat → Finset Nat)
    (st : DFState) :
    (fullPass n preds gen kill st).outs = passOuts n preds gen kill st.outs :=
  foldl_outs_eq preds gen kill (List.range n) ⟨st.ins, st.outs, false⟩

lemma pass_fix_changed_false (n : Nat) (preds : List (List Nat))
    (gen kill : Nat → Finset Nat) (st : DFState)
    (hfix : passOuts n preds gen kill st.outs = st.outs) :
    (fullPass n preds gen kill st).changed = false := by
  apply foldl_changed_of_outs_eq preds gen kill (List.range n) (List.nodup_range n)
    ⟨st.ins, st.outs, false⟩ rfl
  rw [foldl_outs_eq]
  exact hfix

lemma outs_iter (n : Nat) (preds : List (List Nat)) (gen kill : Nat → Finset Nat) :
    ∀ k : Nat, ((fullPass n preds gen kill)^[k] dfInit).outs
      = (passOuts n preds gen kill)^[k] (fun _ => ∅)
  | 0 => rfl
  | k + 1 => by
    rw [Function.iterate_succ_apply', Function.iterate_succ_apply']
    rw [pass_outs]
    rw [outs_iter n preds gen kill k]

lemma sum_card_lt (n : Nat) (O O' : Nat → Finset Nat)
    (hsub : ∀ x, O x ⊆ O' x) (hne : O' ≠ O)
    (huntouched : ∀ x, x ∉ List.range n → O' x = O x) :
    (Finset.range n).sum (fun b => (O b).card)
      < (Finset.range n).sum (fun b => (O' b).card) := by
  have hex : ∃ x, O' x ≠ O x := by
    by_contra hall
    push_neg at hall
    exact hne (funext hall)
  obtain ⟨x, hx⟩ := hex
  have hxin : x ∈ List.range n := by
    by_contra hxn
    exact hx (huntouched x hxn)
  apply Finset.sum_lt_sum
  · intro i _
    exact Finset.card_le_card (hsub i)
  · refine ⟨x, Finset.mem_range.mpr (List.mem_range.mp hxin), ?_⟩
    exact Finset.card_lt_card
      (Finset.ssubset_iff_subset_ne.mpr ⟨hsub x, fun he => hx he.symm⟩)

lemma growth_iter (n : Nat) (preds : List (List Nat)) (gen kill : Nat → Finset Nat) :
    ∀ k : Nat,
      (∀ j, j < k →
        passOuts n preds gen kill ((passOuts n preds gen kill)^[j] (fun _ => ∅))
          ≠ (passOuts n preds gen kill)^[j] (fun _ => ∅)) →
      k ≤ (Finset.range n).sum
        (fun b => (((passOuts n preds gen kill)^[k] (fun _ => ∅)) b).card)
  | 0, _ => Nat.zero_le _
  | k + 1, hch => by
    have hk := growth_iter n preds gen kill k (fun j hj => hch j (by omega))
    have hlt : (Finset.range n).sum
        (fun b => (((passOuts n preds gen kill)^[k] (fun _ => ∅)) b).card)
        < (Finset.range n).sum
        (fun b => (((passOuts n preds gen kill)^[k + 1] (fun _ => ∅)) b).card) := by
      rw [Function.iterate_succ_apply']
      apply sum_card_lt
      · intro x
        have h2 := iter_le_succ n preds gen kill k x
        rwa [Function.iterate_succ_apply'] at h2
      · exact hch k (by omega)
      · intro x hx
        exact foldl_stepOuts_untouched preds gen kill (List.range n) _ x hx
    omega

/-- C5: the solver terminates.  Starting from empty out sets, within at most
n * |U| + 1 full passes (n the number of blocks, U a finite universe holding
every gen set, in the analyzer the set of all definition ids) some pass
reports no change, which is exactly the condition ending the while-loop. -/
theorem C5_solver_terminates (n : Nat) (preds : List (List Nat))
    (gen kill : Nat → Finset Nat) (U : Finset Nat)
    (hU : (List.range n).all (fun b => decide (gen b ⊆ U)) = true) :
    ∃ k, k ≤ n * U.card + 1 ∧
      ((fullPass n preds gen kill)^[k] dfInit).changed = false := by
  have hg : ∀ b ∈ List.range n, gen b ⊆ U := by
    intro b hb
    have h2 := (List.all_eq_true.mp hU) b hb
    rwa [decide_eq_true_eq] at h2
  by_contra hno
  push_neg at hno
  have hne : ∀ j, j < n * U.card + 1 →
      passOuts n preds gen kill ((passOuts n preds gen kill)^[j] (fun _ => ∅))
        ≠ (passOuts n preds gen kill)^[j] (fun _ => ∅) := by
    intro j hj heq
    apply hno (j + 1) (by omega)
    rw [Function.iterate_succ_apply']
    apply pass_fix_changed_false
    rw [outs_iter]
    exact heq
  have hgrow := growth_iter n preds gen kill (n * U.card + 1) hne
  have hcap : (Finset.range n).sum
      (fun b => (((passOuts n preds gen kill)^[n * U.card + 1] (fun _ => ∅)) b).card)
      ≤ n * U.card := by
    apply le_trans (Finset.sum_le_sum (fun b _ => Finset.card_le_card
      (iter_subset_U n preds gen kill U hg (n * U.card + 1) b)))
    rw [Finset.sum_const, Finset.card_range, smul_eq_mul]
  omega

/-- Witness for C5 at a one-block instance with empty gen sets. -/
theorem C5_witness :
    ((List.range 1).all (fun b => decide ((fun _ => (∅ : Finset Nat)) b ⊆ ∅)) = true) ∧
    ∃ k, k ≤ 1 * Finset.card (∅ : Finset Nat) + 1 ∧
      ((fullPass 1 [[]] (fun _ => (∅ : Finset Nat)) (fun _ => ∅))^[k] dfInit).changed
        = false :=
  ⟨by decide, C5_solver_terminates 1 [[]] (fun _ => ∅) (fun _ => ∅) ∅ (by decide)⟩

end Analyzer
